import Mathlib

/-!
Shallow embedding of the payment reconciliation pipeline of the
finance-assistant repository.

The definitions below are translated from the TypeScript source:
  - src/src/services/conta49.ts      (accounting client, scraper, extractor)
  - src/src/services/bancoInter.ts   (banking client payment builders)
  - src/src/app/api/charges/route.ts (per-charge payment loop)
  - src/src/app/api/pay-tax-documents/route.ts (boleto payment path)
  - the tax-document route (unnamed part_002)
  - src/src/server/db/schema.ts      (persisted rows, primary keys)

Network calls, the database and the document-understanding service are
modelled as explicit inputs (functions or lists passed to the embedded
operations); machine state is passed explicitly.
-/

namespace FinanceAssistant

/-! ### Data model (conta49.ts `ChargeSchema`, `Conta49TaxDocumentSchema`) -/

/-- Charge status enum: the three literals of `ChargeSchema`'s `z.enum`. -/
inductive ChargeStatus where
  | PENDING
  | OVERDUE
  | RECEIVED
deriving DecidableEq, Repr

/-- A charge as validated by `ChargeSchema` (conta49.ts lines 39-45).
`value` is a JS number used only opaquely by the embedded operations. -/
structure Charge where
  id : String
  status : ChargeStatus
  description : String
  value : Int
  invoiceUrl : String
deriving DecidableEq, Repr

/-- Model of `ChargeWithPix = Charge & { pixCode?: string }` (conta49.ts lines 49-51). -/
structure ChargeWithPix extends Charge where
  pixCode : Option String
deriving DecidableEq, Repr

/-- A tax document as validated by `Conta49TaxDocumentSchema`
(conta49.ts lines 71-81); optional fields are `Option`. -/
structure Conta49TaxDocument where
  created_at : String
  description : String
  id : String
  name : String
  tags : List String
  title : String
  payment_code : Option String
  expiration_date : Option String
  value : Option String
deriving DecidableEq, Repr

/-- The shape validated by `boletoSchema` (conta49.ts lines 557-561):
three plain string fields, with no further refinement. -/
structure Boleto where
  payment_code : String
  value : String
  expiration_date : String
deriving DecidableEq, Repr

/-- A row of the `documents` table (schema.ts lines 26-39). -/
structure PersistedDocument where
  id : String
  name : String
  paid : Bool
  payment_code : String
  value : String
  expiration_date : String
deriving DecidableEq, Repr

/-- A row of the `payment_events` table (schema.ts lines 41-50);
`id` is the primary key. -/
structure PaymentEvent where
  id : String
  description : String
deriving DecidableEq, Repr

/-! ### URL normalization (conta49.ts `parseInvoiceUrl`, lines 317-329) -/

/-- Whether `pat` occurs as a contiguous run inside `s`. -/
def listHasRun (pat : List Char) : List Char → Bool
  | [] => pat.isEmpty
  | c :: rest => pat.isPrefixOf (c :: rest) || listHasRun pat rest

/-- JS `String.prototype.includes`, specialised to character lists. -/
def containsSubstring (s pat : String) : Bool :=
  listHasRun pat.data s.data

/-- The regex `/\/i\/([^\/]+)$/.exec(invoiceUrl)` capture: the URL must end
in `/i/` followed by a nonempty run of non-slash characters; the capture is
that final run.  Implemented by scanning the reversed character list. -/
def extractShortLinkId (url : String) : Option String :=
  let r := url.data.reverse
  let idRev := r.takeWhile (fun c => c != '/')
  match r.dropWhile (fun c => c != '/') with
  | '/' :: 'i' :: '/' :: _ =>
      if idRev.isEmpty then none else some (String.mk idRev.reverse)
  | _ => none

/-- Model of `parseInvoiceUrl` (conta49.ts lines 317-329). -/
def parseInvoiceUrl (invoiceUrl : String) : String :=
  if containsSubstring invoiceUrl "/b/preview/" then
    invoiceUrl
  else
    match extractShortLinkId invoiceUrl with
    | some id => "https://www.asaas.com/b/preview/" ++ id
    | none => invoiceUrl

/-! ### Invoice page scraper
(conta49.ts `extractPixCodeFromAsaPreviewPage`, lines 336-387)

The fetched, cheerio-parsed page is abstracted to the pieces the three
heuristics inspect: the text of the `p` inside a `.pix-section` container
when that container exists, the text of the `p` following the
"Código Pix copia e cola" `h5` when that heading exists, and the texts of
all `p` elements. -/

structure AsaPreviewPage where
  /-- Holds `some t` iff `$(".pix-section")` is nonempty; `t` is `find("p").text()`
  (the `|| ""` fallback is covered by `t = ""`). -/
  pixSection : Option String
  /-- Holds `some t` iff the `h5` containing "Código Pix copia e cola" is present;
  `t` is `next("p").text()`. -/
  pixHeadingNext : Option String
  /-- texts of all `p` elements, in document order. -/
  paragraphs : List String
deriving DecidableEq, Repr

/-- JS `String.prototype.trim`: strip whitespace from both ends. -/
def jsTrim (s : String) : String :=
  String.mk
    (((s.data.dropWhile Char.isWhitespace).reverse.dropWhile
        Char.isWhitespace).reverse)

/-- JS `String.prototype.startsWith`. -/
def strStartsWith (s pat : String) : Bool :=
  pat.data.isPrefixOf s.data

/-- One heuristic step shared by the first two heuristics:
`pixCode = text.trim() || ""; if (pixCode?.startsWith("00020101")) return`. -/
def pixCandidate (t : String) : Option String :=
  if strStartsWith (jsTrim t) "00020101" then some (jsTrim t) else none

/-- Heuristic 1: the `.pix-section` container text. -/
def heuristicPixSection (page : AsaPreviewPage) : Option String :=
  match page.pixSection with
  | some t => pixCandidate t
  | none => none

/-- Heuristic 2: the paragraph after the "Código Pix copia e cola" `h5`. -/
def heuristicPixHeading (page : AsaPreviewPage) : Option String :=
  match page.pixHeadingNext with
  | some t => pixCandidate t
  | none => none

/-- Heuristic 3: `$("p").filter(...)` then `.first()` — the first paragraph
whose trimmed text contains "br.gov.bcb.pix" and starts with "00020101". -/
def heuristicParagraphs (page : AsaPreviewPage) : Option String :=
  match page.paragraphs.find? (fun t =>
      containsSubstring (jsTrim t) "br.gov.bcb.pix"
        && strStartsWith (jsTrim t) "00020101") with
  | some t => some (jsTrim t)
  | none => none

/-- The three in-order heuristics applied to a successfully fetched page. -/
def extractPixCodeFromPage (page : AsaPreviewPage) : Option String :=
  match heuristicPixSection page with
  | some code => some code
  | none =>
    match heuristicPixHeading page with
    | some code => some code
    | none => heuristicParagraphs page

/-- Model of `extractPixCodeFromAsaPreviewPage`: `fetched = none` models the
transport/parse failure path, whose `catch` logs and returns `null`. -/
def extractPixCodeFromAsaPreviewPage (fetched : Option AsaPreviewPage) :
    Option String :=
  match fetched with
  | some page => extractPixCodeFromPage page
  | none => none

/-! ### Charge enrichment (conta49.ts `enhanceChargesWithPaymentCodes`,
lines 394-418).  `scrape` stands for
`extractPixCodeFromAsaPreviewPage ∘ fetch` applied to the invoice URL;
the JS truthiness test `if (pixCode)` leaves the field unset for both
`null` and `""`. -/

def enhanceChargesWithPaymentCodes (scrape : String → Option String)
    (charges : List Charge) : List ChargeWithPix :=
  charges.map (fun charge =>
    match scrape charge.invoiceUrl with
    | some pixCode =>
        if pixCode = "" then { charge with pixCode := none }
        else { charge with pixCode := some pixCode }
    | none => { charge with pixCode := none })

/-! ### Pending charges (conta49.ts `getPendingCharges`, lines 424-463) -/

/-- The filter+map over fetched charges (lines 439-449): keep
`status === PENDING || status === OVERDUE`, normalize each `invoiceUrl`. -/
def pendingChargesOf (charges : List Charge) : List Charge :=
  (charges.filter (fun payment =>
      payment.status == ChargeStatus.PENDING
        || payment.status == ChargeStatus.OVERDUE)).map
    (fun charge => { charge with invoiceUrl := parseInvoiceUrl charge.invoiceUrl })

/-- Model of `getPendingCharges` after authentication and fetch: filter, normalize,
then enrich with PIX codes. -/
def getPendingCharges (scrape : String → Option String)
    (charges : List Charge) : List ChargeWithPix :=
  enhanceChargesWithPaymentCodes scrape (pendingChargesOf charges)

/-! ### Tax documents (conta49.ts `getTaxDocuments`, lines 529-534) -/

/-- The tag filter over validated documents: keep those whose tags include
`"guia"` or `"Boleto"` (the `!doc.tags || !Array.isArray(doc.tags)` guard is
vacuous after schema validation, where `tags` is always an array). -/
def filterTaxDocuments (docs : List Conta49TaxDocument) :
    List Conta49TaxDocument :=
  docs.filter (fun doc => doc.tags.contains "guia" || doc.tags.contains "Boleto")

/-! ### Document code extractor validation
(conta49.ts `fetchConta49DocumentPaymentCode`, lines 572-702)

The answer of the document-understanding service is a content block; only
a textual block is accepted.  Its text goes through `JSON.parse` and then
`boletoSchema.parse`.  JSON values are modelled with the three cases the
schema distinguishes: strings, objects, anything else. -/

inductive Json where
  | str (s : String)
  | obj (fields : List (String × Json))
  | other

/-- JS object property lookup (object keys are unique; first match). -/
def lookupField (fields : List (String × Json)) (key : String) : Option Json :=
  (fields.find? (fun kv => kv.fst == key)).map (fun kv => kv.snd)

/-- Model of `z.string()` applied to a possibly-missing field. -/
def asString : Option Json → Option String
  | some (Json.str s) => some s
  | _ => none

/-- Model of `boletoSchema.parse` (conta49.ts lines 557-561): an object with string
fields `payment_code`, `value`, `expiration_date`; `none` models the thrown
ZodError. -/
def boletoSchemaParse (j : Json) : Option Boleto :=
  match j with
  | Json.obj fields =>
    match asString (lookupField fields "payment_code"),
        asString (lookupField fields "value"),
        asString (lookupField fields "expiration_date") with
    | some pc, some v, some ed => some ⟨pc, v, ed⟩
    | _, _, _ => none
  | _ => none

/-- A content block of the model response: `res.type === "text"` or not. -/
inductive ClaudeContent where
  | text (s : String)
  | nonText

/-- The answer validation of `fetchConta49DocumentPaymentCode`
(lines 683-697): reject a missing or non-textual block, run `JSON.parse`
(`jsonParse`, `none` = parse exception) and `boletoSchema.parse`.
`none` models the extraction error propagated to the caller. -/
def validateExtractorAnswer (jsonParse : String → Option Json)
    (res : Option ClaudeContent) : Option Boleto :=
  match res with
  | some (ClaudeContent.text s) =>
    match jsonParse s with
    | some j => boletoSchemaParse j
    | none => none
  | _ => none

/-- Removing all spaces and hyphens, the separator-stripping the spec's
48-digit requirement is stated after. -/
def stripSeparators (s : String) : String :=
  String.mk (s.data.filter (fun c => c != ' ' && c != '-'))

/-! ### Banking client payment builder
(bancoInter.ts `createPixCopyPastePayment`, lines 224-239) -/

/-- The `PIX_COPIA_E_COLA` payment shape (bancoInter.ts lines 56-64);
the `destinatario.tipo` discriminator is fixed by the shape itself. -/
structure PixCopyPastePayment where
  valor : Int
  dataPagamento : Option String
  descricao : String
  pixCopiaECola : String
deriving DecidableEq, Repr

def createPixCopyPastePayment (value : Int) (copyPasteCode : String)
    (description : String) (paymentDate : Option String) : PixCopyPastePayment :=
  { valor := value
    dataPagamento := paymentDate
    descricao := description
    pixCopiaECola := copyPasteCode }

/-! ### Per-charge payment loop
(src/src/app/api/charges/route.ts `GET`, lines 50-73)

The loop body is, per charge: if a `pixCode` is present, build the
copy-paste payment, `makePixPayment`, then insert a `paymentEventsTable`
row keyed by the charge id; the whole body is inside `try/catch`, the
`catch` only logs.  The bank call is modelled by `payOk` (false = the call
throws). `submissions` records every `makePixPayment` call, tagged with the
id of the charge that produced it; `events` is the `payment_events` table,
whose primary key makes a duplicate-id insert throw. -/

structure PayPassState where
  submissions : List (String × PixCopyPastePayment)
  events : List PaymentEvent
deriving DecidableEq, Repr

def payChargeStep (payOk : ChargeWithPix → Bool) (st : PayPassState)
    (charge : ChargeWithPix) : PayPassState :=
  match charge.pixCode with
  | some pixCode =>
      let pixPayment :=
        createPixCopyPastePayment charge.value pixCode charge.description none
      let st1 : PayPassState :=
        { st with submissions := st.submissions ++ [(charge.id, pixPayment)] }
      if payOk charge then
        if st1.events.any (fun e => e.id == charge.id) then
          st1   -- duplicate primary key: the insert throws, caught by the catch
        else
          { st1 with events := st1.events ++ [⟨charge.id, charge.description⟩] }
      else
        st1     -- makePixPayment threw, caught by the catch
  | none => st  -- logged warning: no PIX code, nothing submitted

/-- The `for (const charge of pendingCharges)` loop. -/
def payPendingChargesLoop (payOk : ChargeWithPix → Bool)
    (charges : List ChargeWithPix) (st : PayPassState) : PayPassState :=
  charges.foldl (payChargeStep payOk) st

/-- The submission record one charge with a PIX code produces. -/
def pixSubmissionOf (charge : ChargeWithPix) : String × PixCopyPastePayment :=
  (charge.id,
    createPixCopyPastePayment charge.value (charge.pixCode.getD "")
      charge.description none)

/-! ### Boleto payment path
(src/src/app/api/pay-tax-documents/route.ts `GET`, lines 10-27, and
bancoInter.ts `createBoletoBankAccountPayment`, lines 282-313) -/

/-- The drizzle `where: and(eq(paid, false), ne(payment_code, ""))`. -/
def selectUnpaidBoletosWithCode (rows : List PersistedDocument) :
    List PersistedDocument :=
  rows.filter (fun d => d.paid == false && d.payment_code != "")

/-- The request body built by `createBoletoBankAccountPayment`
(bancoInter.ts lines 296-300). -/
structure BoletoPaymentBody where
  codBarraLinhaDigitavel : String
  valorPagar : String
  dataVencimento : String
deriving DecidableEq, Repr

def boletoPaymentBody (boleto : PersistedDocument) : BoletoPaymentBody :=
  ⟨boleto.payment_code, boleto.value, boleto.expiration_date⟩

/-- The boletos passed to `createBoletoBankAccountPayment` by the route:
exactly the selected rows. -/
def boletoPaymentsSubmitted (rows : List PersistedDocument) :
    List BoletoPaymentBody :=
  (selectUnpaidBoletosWithCode rows).map boletoPaymentBody

/-! ### Tax-document route (unnamed part_002 `GET`, lines 31-62) -/

/-- Model of `newDocuments`: the fetched documents whose id is not among the
persisted ids (`!dbDocuments.map(e => e.id).includes(doc.id)`); `dbIds`
stands for `dbDocuments.map(e => e.id)`. -/
def newDocumentsOf (taxDocuments : List Conta49TaxDocument)
    (dbIds : List String) : List Conta49TaxDocument :=
  taxDocuments.filter (fun doc => !(dbIds.contains doc.id))

/-- The per-document enrichment loop: resolve the boleto for the document
id, back-fill `payment_code` and `value` (the source also assigns
`doc.date = docUrl.date`, a field that exists on neither side; it is not
inserted and not modelled).  `resolve` stands for
`fetchConta49DocumentPaymentCode`. -/
def enrichNewDocuments (resolve : String → Boleto)
    (docs : List Conta49TaxDocument) : List Conta49TaxDocument :=
  docs.map (fun doc =>
    { doc with
      payment_code := some (resolve doc.id).payment_code
      value := some (resolve doc.id).value })

/-- The row shape of `db.insert(documents).values(...)` in part_002
lines 53-62: id, created_at, name, `payment_code ?? ""`. -/
structure InsertedDocumentRow where
  id : String
  created_at : String
  name : String
  payment_code : String
deriving DecidableEq, Repr

/-- The rows the tax-document route inserts for one pass. -/
def documentInsertRows (resolve : String → Boleto)
    (taxDocuments : List Conta49TaxDocument) (dbIds : List String) :
    List InsertedDocumentRow :=
  (enrichNewDocuments resolve (newDocumentsOf taxDocuments dbIds)).map
    (fun doc => ⟨doc.id, doc.created_at, doc.name, doc.payment_code.getD ""⟩)

/-! ### Concrete fixtures used by witnesses and counterexamples -/

def sampleCharge : Charge :=
  { id := "C1", status := ChargeStatus.PENDING, description := "d",
    value := 100, invoiceUrl := "u" }

def sampleChargePix : ChargeWithPix :=
  { sampleCharge with pixCode := none }

def sampleTaxDocument : Conta49TaxDocument :=
  ⟨"2024", "desc", "D1", "n", ["guia"], "t", none, none, none⟩

def samplePersistedDocument : PersistedDocument :=
  ⟨"D1", "n", false, "48digits", "10.00", "2025-01-01"⟩

/-- Three pending charges with PIX codes; the bank call for the second one
throws (`scenarioPayOk` is false exactly there). -/
def scenarioCharge1 : ChargeWithPix :=
  { id := "1", status := ChargeStatus.PENDING, description := "d1",
    value := 10, invoiceUrl := "u1", pixCode := some "00020101a" }

def scenarioCharge2 : ChargeWithPix :=
  { id := "2", status := ChargeStatus.PENDING, description := "d2",
    value := 20, invoiceUrl := "u2", pixCode := some "00020101b" }

def scenarioCharge3 : ChargeWithPix :=
  { id := "3", status := ChargeStatus.PENDING, description := "d3",
    value := 30, invoiceUrl := "u3", pixCode := some "00020101c" }

def scenarioPayOk : ChargeWithPix → Bool := fun c => c.id != "2"

/-- A single pending charge with a PIX code, returned unchanged by the
upstream in two successive reconciliation passes. -/
def c1RouteCharge : ChargeWithPix :=
  { id := "C1", status := ChargeStatus.PENDING, description := "tax",
    value := 100, invoiceUrl := "https://www.asaas.com/b/preview/XYZ",
    pixCode := some "00020101deadbeef" }

/-- First pass of the charges route over `c1RouteCharge`: empty
`payment_events` table, bank accepts. -/
def c1FirstPass : PayPassState :=
  payPendingChargesLoop (fun _ => true) [c1RouteCharge] ⟨[], []⟩

/-- Second pass with the same upstream charge: the `payment_events` rows of
the first pass are persisted, the bank accepts again. -/
def c1SecondPass : PayPassState :=
  payPendingChargesLoop (fun _ => true) [c1RouteCharge] ⟨[], c1FirstPass.events⟩

/-! ## Helper lemmas -/

/-- Enrichment is a frame-preserving map: projecting back to `Charge`
recovers the input list. -/
theorem enhanceCharges_toCharge_map (scrape : String → Option String)
    (charges : List Charge) :
    (enhanceChargesWithPaymentCodes scrape charges).map
        (fun c => c.toCharge) = charges := by
  induction charges with
  | nil => rfl
  | cons a as ih =>
    simp only [enhanceChargesWithPaymentCodes, List.map_cons] at ih ⊢
    refine congrArg₂ List.cons ?_ ih
    cases hs : scrape a.invoiceUrl with
    | none => rfl
    | some p =>
      by_cases hp : p = "" <;> simp [hp]

/-- A member of the status-filtered, URL-normalized charge list has status
PENDING or OVERDUE. -/
theorem pendingChargesOf_status (charges : List Charge) (a : Charge)
    (h : a ∈ pendingChargesOf charges) :
    a.status = ChargeStatus.PENDING ∨ a.status = ChargeStatus.OVERDUE := by
  simp only [pendingChargesOf, List.mem_map, List.mem_filter] at h
  obtain ⟨b, ⟨_, hcond⟩, rfl⟩ := h
  simpa using hcond

/-- Completeness of the status filter: a pending or overdue charge appears,
URL-normalized, in `pendingChargesOf`. -/
theorem pendingChargesOf_complete (charges : List Charge) (c : Charge)
    (hmem : c ∈ charges)
    (hstatus : c.status = ChargeStatus.PENDING ∨ c.status = ChargeStatus.OVERDUE) :
    ({ c with invoiceUrl := parseInvoiceUrl c.invoiceUrl } : Charge) ∈
      pendingChargesOf charges := by
  refine List.mem_map_of_mem _ (List.mem_filter.mpr ⟨hmem, ?_⟩)
  rcases hstatus with h | h <;> simp [h]

/-! ## Claim theorems -/

/-- C10: `enhanceChargesWithPaymentCodes` returns a list of the same length
and order, whose elements agree with the corresponding input charge on every
original field (the `Charge` projection is the identity on the list); the
only possible change is the attached optional `pixCode`. -/
theorem enhance_charges_frame :
    ∀ (scrape : String → Option String) (charges : List Charge),
      (enhanceChargesWithPaymentCodes scrape charges).map
          (fun c => c.toCharge) = charges
        ∧ (enhanceChargesWithPaymentCodes scrape charges).length
            = charges.length := by
  intro scrape charges
  refine ⟨enhanceCharges_toCharge_map scrape charges, ?_⟩
  have h := congrArg List.length (enhanceCharges_toCharge_map scrape charges)
  simpa using h

/-- C5: every charge surviving `getPendingCharges` has status PENDING or
OVERDUE, never RECEIVED, and every PENDING/OVERDUE input charge survives
(with its invoice URL normalized). -/
theorem pending_charges_status_filter :
    (∀ (scrape : String → Option String) (charges : List Charge)
        (c : ChargeWithPix), c ∈ getPendingCharges scrape charges →
          c.status = ChargeStatus.PENDING ∨ c.status = ChargeStatus.OVERDUE)
  ∧ (∀ (scrape : String → Option String) (charges : List Charge)
        (c : ChargeWithPix), c ∈ getPendingCharges scrape charges →
          c.status ≠ ChargeStatus.RECEIVED)
  ∧ (∀ (scrape : String → Option String) (charges : List Charge) (c : Charge),
        c ∈ charges →
        (c.status = ChargeStatus.PENDING ∨ c.status = ChargeStatus.OVERDUE) →
        ∃ c' ∈ getPendingCharges scrape charges,
          c'.toCharge = { c with invoiceUrl := parseInvoiceUrl c.invoiceUrl }) := by
  have hmem : ∀ (scrape : String → Option String) (charges : List Charge)
      (c : ChargeWithPix), c ∈ getPendingCharges scrape charges →
        c.toCharge ∈ pendingChargesOf charges := by
    intro scrape charges c hc
    have h := enhanceCharges_toCharge_map scrape (pendingChargesOf charges)
    rw [← h]
    exact List.mem_map_of_mem _ hc
  refine ⟨?_, ?_, ?_⟩
  · intro scrape charges c hc
    exact pendingChargesOf_status charges c.toCharge (hmem scrape charges c hc)
  · intro scrape charges c hc
    rcases pendingChargesOf_status charges c.toCharge (hmem scrape charges c hc) with
      h | h <;> rw [h] <;> decide
  · intro scrape charges c hcmem hstatus
    have h1 := pendingChargesOf_complete charges c hcmem hstatus
    have h2 := enhanceCharges_toCharge_map scrape (pendingChargesOf charges)
    rw [← h2] at h1
    obtain ⟨c', hc', hce⟩ := List.mem_map.mp h1
    exact ⟨c', hc', hce⟩

/-- C5 witness: instantiation at a concrete PENDING charge. -/
theorem pending_charges_status_filter_witness :
    sampleChargePix.status = ChargeStatus.PENDING
      ∨ sampleChargePix.status = ChargeStatus.OVERDUE :=
  pending_charges_status_filter.1 (fun _ => none) [sampleCharge]
    sampleChargePix (by decide)

/-- C7: a document survives `filterTaxDocuments` iff its tags include
`"guia"` or `"Boleto"`; a document tagged only `"invoice"` is excluded. -/
theorem tax_documents_tag_filter :
    (∀ (docs : List Conta49TaxDocument) (d : Conta49TaxDocument),
        d ∈ filterTaxDocuments docs ↔
          d ∈ docs ∧ ("guia" ∈ d.tags ∨ "Boleto" ∈ d.tags))
  ∧ (∀ (docs : List Conta49TaxDocument) (d : Conta49TaxDocument),
        d ∈ docs → d.tags = ["invoice"] → d ∉ filterTaxDocuments docs) := by
  have hiff : ∀ (docs : List Conta49TaxDocument) (d : Conta49TaxDocument),
      d ∈ filterTaxDocuments docs ↔
        d ∈ docs ∧ ("guia" ∈ d.tags ∨ "Boleto" ∈ d.tags) := by
    intro docs d
    simp [filterTaxDocuments, List.mem_filter, List.contains, List.elem_iff]
  refine ⟨hiff, ?_⟩
  intro docs d _ htags hcontra
  have h := ((hiff docs d).mp hcontra).2
  rw [htags] at h
  simp at h

/-- C7 witness: a "guia"-tagged document passes through the filter. -/
theorem tax_documents_tag_filter_witness :
    sampleTaxDocument ∈ filterTaxDocuments [sampleTaxDocument] :=
  (tax_documents_tag_filter.1 _ _).mpr (by decide)

/-- C9: every row selected for boleto payment is unpaid and has a non-empty
payment code; hence every submitted boleto body carries a non-empty
barcode/digitable line. -/
theorem boleto_payment_requires_code :
    (∀ (rows : List PersistedDocument) (d : PersistedDocument),
        d ∈ selectUnpaidBoletosWithCode rows →
          d.paid = false ∧ d.payment_code ≠ "")
  ∧ (∀ (rows : List PersistedDocument) (b : BoletoPaymentBody),
        b ∈ boletoPaymentsSubmitted rows → b.codBarraLinhaDigitavel ≠ "") := by
  have hsel : ∀ (rows : List PersistedDocument) (d : PersistedDocument),
      d ∈ selectUnpaidBoletosWithCode rows →
        d.paid = false ∧ d.payment_code ≠ "" := by
    intro rows d hd
    have h := (List.mem_filter.mp hd).2
    simp only [Bool.and_eq_true, beq_iff_eq, bne_iff_ne] at h
    exact ⟨h.1, h.2⟩
  refine ⟨hsel, ?_⟩
  intro rows b hb
  obtain ⟨d, hd, rfl⟩ := List.mem_map.mp hb
  exact (hsel rows d hd).2

/-- C9 witness: instantiation at a concrete unpaid row with a code. -/
theorem boleto_payment_requires_code_witness :
    samplePersistedDocument.paid = false
      ∧ samplePersistedDocument.payment_code ≠ "" :=
  boleto_payment_requires_code.1 [samplePersistedDocument]
    samplePersistedDocument (by decide)

/-- C2 counterexample: a 47-digit `payment_code` (here 47 digits long after
stripping separators, because it contains none) passes `boletoSchema.parse`
unchanged — the schema never counts digits, refuting the claim that such an
answer is rejected. -/
theorem boletoSchema_accepts_47_digit_code :
    boletoSchemaParse (Json.obj
        [("payment_code",
            Json.str "12345678901234567890123456789012345678901234567"),
          ("value", Json.str "123.45"),
          ("expiration_date", Json.str "2025-03-15")])
      = some ⟨"12345678901234567890123456789012345678901234567",
          "123.45", "2025-03-15"⟩
    ∧ (stripSeparators
        "12345678901234567890123456789012345678901234567").length = 47 := by
  constructor
  · rfl
  · decide

/-- C2 amended: extraction validation rejects a non-textual answer, an
answer `JSON.parse` cannot parse, and an answer that is not an object with
string fields `payment_code`/`value`/`expiration_date`; it performs no
digit-count check, so a `payment_code` of any length — 47 or 48 digits
alike — passes. -/
theorem extractor_validation_shape_only :
    (∀ pc v ed : String,
        boletoSchemaParse (Json.obj [("payment_code", Json.str pc),
            ("value", Json.str v), ("expiration_date", Json.str ed)])
          = some ⟨pc, v, ed⟩)
  ∧ (∀ jsonParse : String → Option Json,
        validateExtractorAnswer jsonParse (some ClaudeContent.nonText) = none
          ∧ validateExtractorAnswer jsonParse none = none)
  ∧ (∀ s : String,
        validateExtractorAnswer (fun _ => none)
          (some (ClaudeContent.text s)) = none)
  ∧ boletoSchemaParse Json.other = none
  ∧ boletoSchemaParse (Json.obj []) = none
  ∧ (boletoSchemaParse (Json.obj
        [("payment_code",
            Json.str "123456789012345678901234567890123456789012345678"),
          ("value", Json.str "123.45"),
          ("expiration_date", Json.str "2025-03-15")])).isSome = true := by
  refine ⟨?_, ?_, ?_, rfl, rfl, rfl⟩
  · intro pc v ed; rfl
  · intro jsonParse; exact ⟨rfl, rfl⟩
  · intro s; rfl

/-- C4: the tax-document path inserts exactly the fetched documents whose id
is not already persisted: no inserted row carries a persisted id, a second
pass over the same upstream documents (with the first pass's rows persisted)
inserts nothing, and distinct upstream ids yield distinct inserted ids. -/
theorem tax_document_insert_only :
    (∀ (resolve : String → Boleto) (docs : List Conta49TaxDocument)
        (dbIds : List String) (r : InsertedDocumentRow),
        r ∈ documentInsertRows resolve docs dbIds → r.id ∉ dbIds)
  ∧ (∀ (resolve : String → Boleto) (docs : List Conta49TaxDocument)
        (dbIds : List String),
        documentInsertRows resolve docs
          (dbIds ++ (documentInsertRows resolve docs dbIds).map
            (fun r => r.id)) = [])
  ∧ (∀ (resolve : String → Boleto) (docs : List Conta49TaxDocument)
        (dbIds : List String),
        (docs.map (fun d => d.id)).Nodup →
          ((documentInsertRows resolve docs dbIds).map
            (fun r => r.id)).Nodup) := by
  have hids : ∀ (resolve : String → Boleto) (docs : List Conta49TaxDocument)
      (dbIds : List String),
      (documentInsertRows resolve docs dbIds).map (fun r => r.id)
        = (newDocumentsOf docs dbIds).map (fun d => d.id) := by
    intro resolve docs dbIds
    simp [documentInsertRows, enrichNewDocuments, List.map_map,
      Function.comp]
  have hnew : ∀ (docs : List Conta49TaxDocument) (dbIds : List String)
      (d : Conta49TaxDocument), d ∈ newDocumentsOf docs dbIds →
        d.id ∉ dbIds := by
    intro docs dbIds d hd
    have h := (List.mem_filter.mp hd).2
    simpa [List.contains, List.elem_iff] using h
  refine ⟨?_, ?_, ?_⟩
  · intro resolve docs dbIds r hr
    simp only [documentInsertRows, enrichNewDocuments, List.map_map,
      List.mem_map, Function.comp] at hr
    obtain ⟨d, hd, rfl⟩ := hr
    exact hnew docs dbIds d hd
  · intro resolve docs dbIds
    have hfil : newDocumentsOf docs
        (dbIds ++ (documentInsertRows resolve docs dbIds).map
          (fun r => r.id)) = [] := by
      rw [hids]
      refine List.filter_eq_nil_iff.mpr ?_
      intro d hd
      simp only [Bool.not_eq_true, Bool.not_eq_true', List.contains,
        Bool.not_eq_false]
      refine List.elem_iff.mpr (List.mem_append.mpr ?_)
      by_cases hIn : d.id ∈ dbIds
      · exact Or.inl hIn
      · refine Or.inr (List.mem_map.mpr ⟨d, ?_, rfl⟩)
        refine List.mem_filter.mpr ⟨hd, ?_⟩
        simpa [List.contains, List.elem_iff] using hIn
    simp only [documentInsertRows, enrichNewDocuments] at hfil ⊢
    rw [hfil]
    rfl
  · intro resolve docs dbIds hnodup
    rw [hids]
    have hsub : List.Sublist
        ((newDocumentsOf docs dbIds).map (fun d => d.id))
        (docs.map (fun d => d.id)) :=
      (List.filter_sublist docs).map (fun d => d.id)
    exact hnodup.sublist hsub

/-- C4 witness: a fresh document id is not among the (empty) persisted ids,
and one inserted row exists for it. -/
theorem tax_document_insert_only_witness :
    (⟨"D1", "2024", "n", "pc"⟩ : InsertedDocumentRow).id ∉
      ([] : List String) :=
  tax_document_insert_only.1 (fun _ => ⟨"pc", "v", "e"⟩)
    [sampleTaxDocument] [] ⟨"D1", "2024", "n", "pc"⟩ (by decide)

/-- C3: the scraper only ever returns a string starting with `"00020101"`
(whichever heuristic matched), and a transport failure yields `none`. -/
theorem extract_pix_code_prefix :
    (∀ (fetched : Option AsaPreviewPage) (code : String),
        extractPixCodeFromAsaPreviewPage fetched = some code →
          strStartsWith code "00020101" = true)
  ∧ extractPixCodeFromAsaPreviewPage none = none := by
  have hcand : ∀ (t code : String), pixCandidate t = some code →
      strStartsWith code "00020101" = true := by
    intro t code h
    simp only [pixCandidate] at h
    split at h
    · cases h
      assumption
    · cases h
  have hpar : ∀ (page : AsaPreviewPage) (code : String),
      heuristicParagraphs page = some code →
        strStartsWith code "00020101" = true := by
    intro page code h
    simp only [heuristicParagraphs] at h
    split at h
    · rename_i t heq
      cases h
      have hp := List.find?_some heq
      exact ((Bool.and_eq_true _ _).mp hp).2
    · cases h
  have hhead : ∀ (page : AsaPreviewPage) (code : String),
      heuristicPixHeading page = some code →
        strStartsWith code "00020101" = true := by
    intro page code h
    simp only [heuristicPixHeading] at h
    split at h
    · exact hcand _ _ h
    · cases h
  have hsec : ∀ (page : AsaPreviewPage) (code : String),
      heuristicPixSection page = some code →
        strStartsWith code "00020101" = true := by
    intro page code h
    simp only [heuristicPixSection] at h
    split at h
    · exact hcand _ _ h
    · cases h
  refine ⟨?_, rfl⟩
  intro fetched code h
  cases fetched with
  | none => simp [extractPixCodeFromAsaPreviewPage] at h
  | some page =>
    simp only [extractPixCodeFromAsaPreviewPage, extractPixCodeFromPage] at h
    split at h
    · rename_i heq
      cases h
      exact hsec _ _ heq
    · split at h
      · rename_i heq
        cases h
        exact hhead _ _ heq
      · exact hpar _ _ h

/-- C3 witness: a page whose pix-section carries a valid code. -/
theorem extract_pix_code_prefix_witness :
    strStartsWith "00020101abc" "00020101" = true :=
  extract_pix_code_prefix.1 (some ⟨some "00020101abc", none, []⟩)
    "00020101abc" (by decide)

/-- takeWhile/dropWhile with `(fun c => c != '/')` split an append at the
first slash. -/
theorem takeWhile_dropWhile_slash (l1 rest : List Char)
    (h : ∀ c ∈ l1, (c != '/') = true) :
    (l1 ++ '/' :: rest).takeWhile (fun c => c != '/') = l1
      ∧ (l1 ++ '/' :: rest).dropWhile (fun c => c != '/') = '/' :: rest := by
  induction l1 with
  | nil => simp [List.takeWhile_cons, List.dropWhile_cons]
  | cons c cs ih =>
    have hc := h c (List.mem_cons_self c cs)
    have hcs : ∀ x ∈ cs, (x != '/') = true := fun x hx =>
      h x (List.mem_cons_of_mem c hx)
    obtain ⟨h1, h2⟩ := ih hcs
    constructor
    · simp [List.takeWhile_cons, hc, h1]
    · simp [List.dropWhile_cons, hc, h2]

/-- The short-link capture succeeds on `p ++ "/i/" ++ id` when the id is a
nonempty slash-free segment. -/
theorem extractShortLinkId_append (p id : String) (hid : id ≠ "")
    (hnoslash : ∀ c ∈ id.data, c ≠ '/') :
    extractShortLinkId (p ++ "/i/" ++ id) = some id := by
  have hdata : (p ++ "/i/" ++ id).data
      = p.data ++ ('/' :: 'i' :: '/' :: []) ++ id.data := by
    simp [String.data_append]
  have hrev : (p ++ "/i/" ++ id).data.reverse
      = id.data.reverse ++ '/' :: 'i' :: '/' :: p.data.reverse := by
    rw [hdata]
    simp [List.reverse_append]
  have hall : ∀ c ∈ id.data.reverse, (c != '/') = true := by
    intro c hc
    simpa [bne_iff_ne] using hnoslash c (List.mem_reverse.mp hc)
  obtain ⟨htake, hdrop⟩ :=
    takeWhile_dropWhile_slash id.data.reverse ('i' :: '/' :: p.data.reverse) hall
  have hne : id.data ≠ [] := by
    intro hcon
    apply hid
    cases id
    simp_all
  have hrevne : id.data.reverse ≠ [] := by simpa using hne
  simp only [extractShortLinkId]
  rw [hrev, htake, hdrop]
  simp only [List.isEmpty_eq_true]
  rw [if_neg hrevne]
  rw [List.reverse_reverse]

/-- C6: `parseInvoiceUrl` leaves a URL containing `/b/preview/` unchanged,
rewrites a `/i/{id}` short link to the canonical preview URL, leaves any
other URL unchanged, and in particular maps `/i/ABC123` to
`https://www.asaas.com/b/preview/ABC123`. -/
theorem parse_invoice_url_normalization :
    (∀ url : String, containsSubstring url "/b/preview/" = true →
        parseInvoiceUrl url = url)
  ∧ (∀ url : String, containsSubstring url "/b/preview/" = false →
        extractShortLinkId url = none → parseInvoiceUrl url = url)
  ∧ (∀ p id : String,
        containsSubstring (p ++ "/i/" ++ id) "/b/preview/" = false →
        id ≠ "" → (∀ c ∈ id.data, c ≠ '/') →
        parseInvoiceUrl (p ++ "/i/" ++ id)
          = "https://www.asaas.com/b/preview/" ++ id)
  ∧ parseInvoiceUrl "/i/ABC123" = "https://www.asaas.com/b/preview/ABC123" := by
  refine ⟨?_, ?_, ?_, by decide⟩
  · intro url h
    simp [parseInvoiceUrl, h]
  · intro url h1 h2
    simp [parseInvoiceUrl, h1, h2]
  · intro p id h1 h2 h3
    simp [parseInvoiceUrl, h1, extractShortLinkId_append p id h2 h3]

/-- C6 witness: a concrete short link rewrites; a concrete preview URL
passes through. -/
theorem parse_invoice_url_normalization_witness :
    parseInvoiceUrl ("https://pay.example.com" ++ "/i/" ++ "XYZ9")
        = "https://www.asaas.com/b/preview/" ++ "XYZ9"
      ∧ parseInvoiceUrl "https://www.asaas.com/b/preview/XYZ9"
        = "https://www.asaas.com/b/preview/XYZ9" :=
  ⟨parse_invoice_url_normalization.2.2.1 "https://pay.example.com" "XYZ9"
      (by decide) (by decide) (by decide),
    parse_invoice_url_normalization.1 "https://www.asaas.com/b/preview/XYZ9"
      (by decide)⟩

/-- A charge without a PIX code leaves the pass state unchanged. -/
theorem payChargeStep_none (payOk : ChargeWithPix → Bool) (st : PayPassState)
    (charge : ChargeWithPix) (h : charge.pixCode = none) :
    payChargeStep payOk st charge = st := by
  simp [payChargeStep, h]

/-- A charge with a PIX code submits exactly one payment, whatever the
outcome of the bank call or of the event insert. -/
theorem payChargeStep_submissions (payOk : ChargeWithPix → Bool)
    (st : PayPassState) (charge : ChargeWithPix) (code : String)
    (h : charge.pixCode = some code) :
    (payChargeStep payOk st charge).submissions
      = st.submissions ++ [(charge.id,
          createPixCopyPastePayment charge.value code
            charge.description none)] := by
  simp only [payChargeStep, h]
  split
  · split <;> rfl
  · rfl

/-- One step never removes already-recorded events. -/
theorem payChargeStep_events_mono (payOk : ChargeWithPix → Bool)
    (st : PayPassState) (charge : ChargeWithPix) :
    ∃ tail, (payChargeStep payOk st charge).events = st.events ++ tail := by
  simp only [payChargeStep]
  split
  · split
    · split
      · exact ⟨[], by simp⟩
      · exact ⟨[⟨_, _⟩], rfl⟩
    · exact ⟨[], by simp⟩
  · exact ⟨[], by simp⟩

/-- Every charge with a PIX code is submitted, in order, regardless of
which bank calls or inserts throw. -/
theorem payPendingChargesLoop_submissions (payOk : ChargeWithPix → Bool)
    (charges : List ChargeWithPix) : ∀ st : PayPassState,
    (payPendingChargesLoop payOk charges st).submissions
      = st.submissions
        ++ (charges.filter (fun c => c.pixCode.isSome)).map pixSubmissionOf := by
  induction charges with
  | nil =>
    intro st
    simp [payPendingChargesLoop]
  | cons c cs ih =>
    intro st
    simp only [payPendingChargesLoop, List.foldl_cons] at ih ⊢
    cases hc : c.pixCode with
    | none =>
      rw [payChargeStep_none payOk st c hc, ih, List.filter_cons]
      simp [hc]
    | some code =>
      rw [ih, payChargeStep_submissions payOk st c code hc, List.filter_cons]
      simp [hc, pixSubmissionOf, List.append_assoc]

/-- The loop never removes already-recorded events. -/
theorem payPendingChargesLoop_events_mono (payOk : ChargeWithPix → Bool)
    (charges : List ChargeWithPix) : ∀ st : PayPassState,
    ∃ tail, (payPendingChargesLoop payOk charges st).events
      = st.events ++ tail := by
  induction charges with
  | nil =>
    intro st
    exact ⟨[], by simp [payPendingChargesLoop]⟩
  | cons c cs ih =>
    intro st
    obtain ⟨t1, h1⟩ := payChargeStep_events_mono payOk st c
    obtain ⟨t2, h2⟩ := ih (payChargeStep payOk st c)
    refine ⟨t1 ++ t2, ?_⟩
    simp only [payPendingChargesLoop, List.foldl_cons] at h2 ⊢
    rw [h2, h1, List.append_assoc]

/-- C8: the per-charge payment loop is failure-isolated: every charge with
a PIX code is submitted no matter which earlier charge threw, recorded
events are never undone, and in the concrete three-charge scenario where
the second bank call throws, the first and third charges are still paid and
recorded and the loop completes. -/
theorem pay_loop_partial_failure_isolation :
    (∀ (payOk : ChargeWithPix → Bool) (charges : List ChargeWithPix)
        (st : PayPassState),
        (payPendingChargesLoop payOk charges st).submissions
          = st.submissions
            ++ (charges.filter (fun c => c.pixCode.isSome)).map pixSubmissionOf)
  ∧ (∀ (payOk : ChargeWithPix → Bool) (charges : List ChargeWithPix)
        (st : PayPassState),
        ∃ tail, (payPendingChargesLoop payOk charges st).events
          = st.events ++ tail)
  ∧ (payPendingChargesLoop scenarioPayOk
        [scenarioCharge1, scenarioCharge2, scenarioCharge3]
        ⟨[], []⟩).events = [⟨"1", "d1"⟩, ⟨"3", "d3"⟩]
  ∧ (payPendingChargesLoop scenarioPayOk
        [scenarioCharge1, scenarioCharge2, scenarioCharge3]
        ⟨[], []⟩).submissions.map Prod.fst = ["1", "2", "3"] :=
  ⟨payPendingChargesLoop_submissions, payPendingChargesLoop_events_mono,
    by decide, by decide⟩

/-- C1: the charges route has no PaymentEvent existence check before
submitting.  After a first pass pays charge "C1" and records its
PaymentEvent, a second pass over the same upstream charge submits a second
PIX payment for "C1" (the duplicate event insert then throws on the primary
key and is swallowed, so no second event row appears). -/
theorem second_pass_resubmits_paid_charge :
    c1FirstPass.events = [⟨"C1", "tax"⟩]
      ∧ c1SecondPass.submissions.map Prod.fst = ["C1"]
      ∧ c1SecondPass.events = [⟨"C1", "tax"⟩] := by
  decide

end FinanceAssistant
